import Mathlib

/-!
Verification of the KiedySmieciKRK waste-schedule core against its
natural-language specification.

The Python sources (src/api_client.py, src/ocr_parser.py) are shallowly
embedded below.  Conventions of the embedding:

* Python strings are Lean `String`; all character-level work happens on
  `List Char` (`String.data`).
* Python `str.strip` / `.upper()` / `.lower()` are modelled on the ASCII
  range (`pyStrip`, `toUpperL`, `toLowerL`).  The repository pipeline
  lower-cases and diacritic-folds OCR text before the parsing stages run,
  so the ASCII model is faithful on the data these functions receive;
  where a pattern itself contains Polish letters we match them literally.
* Python `datetime` is modelled by explicit (year, month, day) triples
  with the proleptic-Gregorian validity check that `datetime` performs
  (`validDate`), and `strftime` outputs are rebuilt by `isoStr`,
  `fmtStr` and `weekdayName` (`%Y` is modelled as zero-padded to 4).
* The wall clock (`datetime.now()`) is passed in explicitly as the pair
  `(cy, cm)` = (current year, current month).
* Fallible Python code (`try ... except ValueError`) becomes `Option`;
  the error-dict convention of `parse_schedule_file` becomes `Except`.
-/

/-- ASCII test for a decimal digit, Python `str.isdigit` on the data in scope. -/
def isDigitC (c : Char) : Bool := 48 ≤ c.toNat && c.toNat ≤ 57

/-- ASCII test for a letter, Python `str.isalpha` on the data in scope. -/
def isAlphaC (c : Char) : Bool :=
  (65 ≤ c.toNat && c.toNat ≤ 90) || (97 ≤ c.toNat && c.toNat ≤ 122)

/-- Python `str.isalnum` character test (ASCII range). -/
def isAlnumC (c : Char) : Bool := isDigitC c || isAlphaC c

/-- Whitespace as Python `str.strip` and the regex class `\s` treat it. -/
def isSpaceC (c : Char) : Bool :=
  c == ' ' || c == '\t' || c == '\n' || c == '\r' || c == '\x0b' || c == '\x0c'

/-- Lower-case one character (ASCII range, see the header note). -/
def lowerChar (c : Char) : Char :=
  if 65 ≤ c.toNat && c.toNat ≤ 90 then Char.ofNat (c.toNat + 32) else c

/-- Upper-case one character (ASCII range). -/
def upperChar (c : Char) : Char :=
  if 97 ≤ c.toNat && c.toNat ≤ 122 then Char.ofNat (c.toNat - 32) else c

/-- Python `str.lower` on character lists. -/
def toLowerL (cs : List Char) : List Char := cs.map lowerChar

/-- Python `str.upper` on character lists. -/
def toUpperL (cs : List Char) : List Char := cs.map upperChar

/-- Python `str.strip()`: drop leading and trailing whitespace. -/
def pyStrip (cs : List Char) : List Char :=
  (((cs.dropWhile isSpaceC).reverse).dropWhile isSpaceC).reverse

/-- Python `str.startswith` / list-prefix test. -/
def isPrefixL : List Char → List Char → Bool
  | [], _ => true
  | _ :: _, [] => false
  | a :: as, b :: bs => a == b && isPrefixL as bs

/-- Python substring test `pat in hay`. -/
def containsSub : (hay pat : List Char) → Bool
  | [], pat => isPrefixL pat []
  | c :: t, pat => isPrefixL pat (c :: t) || containsSub t pat

/-- Python `str.split()` with no separator: split on whitespace runs,
dropping empty pieces (fuel = input length, always sufficient). -/
def splitWsGo : Nat → List Char → List (List Char)
  | 0, _ => []
  | _, [] => []
  | fuel + 1, c :: cs =>
    if isSpaceC c then splitWsGo fuel cs
    else
      (c :: cs.takeWhile (fun x => !isSpaceC x)) ::
        splitWsGo fuel (cs.dropWhile (fun x => !isSpaceC x))

/-- Python `str.split()` wrapper. -/
def splitWs (cs : List Char) : List (List Char) := splitWsGo (cs.length + 1) cs

/-- Numeric value of a digit list, Python `int` on a matched digit group. -/
def digitsToNat (cs : List Char) : Nat :=
  cs.foldl (fun a c => a * 10 + (c.toNat - 48)) 0

/-- Decimal digit character of `n % 10`. -/
def digitChar (n : Nat) : Char := Char.ofNat (48 + n % 10)

/-- Two-digit zero-padded decimal, `strftime` `%d` / `%m`. -/
def pad2 (n : Nat) : List Char := [digitChar (n / 10), digitChar n]

/-- Four-digit zero-padded decimal, `strftime` `%Y` (modelled as padded). -/
def pad4 (n : Nat) : List Char :=
  [digitChar (n / 1000), digitChar (n / 100), digitChar (n / 10), digitChar n]

/-- Gregorian leap-year test, as Python `calendar`/`datetime` use it. -/
def isLeap (y : Nat) : Bool := y % 4 == 0 && (y % 100 != 0 || y % 400 == 0)

/-- Days in a month of the proleptic Gregorian calendar. -/
def daysInMonth (y m : Nat) : Nat :=
  if m = 2 then (if isLeap y then 29 else 28)
  else if m = 4 ∨ m = 6 ∨ m = 9 ∨ m = 11 then 30
  else 31

/-- The triples accepted by Python `datetime(year, month, day)`;
anything else raises `ValueError`. -/
def validDate (y m d : Nat) : Bool :=
  1 ≤ y && y ≤ 9999 && 1 ≤ m && m ≤ 12 && 1 ≤ d && d ≤ daysInMonth y m

/-- Count of days before month `m` in year `y`. -/
def daysBeforeMonth (y m : Nat) : Nat :=
  (List.range (m - 1)).foldl (fun acc i => acc + daysInMonth y (i + 1)) 0

/-- Python `date.toordinal`: day number with 0001-01-01 as day 1. -/
def toOrdinal (y m d : Nat) : Nat :=
  365 * (y - 1) + (y - 1) / 4 - (y - 1) / 100 + (y - 1) / 400 +
    daysBeforeMonth y m + d

/-- English weekday name, Python `strftime('%A')`. -/
def weekdayName (y m d : Nat) : List Char :=
  match toOrdinal y m d % 7 with
  | 1 => "Monday".data
  | 2 => "Tuesday".data
  | 3 => "Wednesday".data
  | 4 => "Thursday".data
  | 5 => "Friday".data
  | 6 => "Saturday".data
  | _ => "Sunday".data

/-- ISO date string `YYYY-MM-DD`, Python `strftime('%Y-%m-%d')`. -/
def isoStr (y m d : Nat) : String := ⟨pad4 y ++ '-' :: pad2 m ++ '-' :: pad2 d⟩

/-- Display date string `DD.MM.YYYY`, Python `strftime('%d.%m.%Y')`. -/
def fmtStr (y m d : Nat) : String := ⟨pad2 d ++ '.' :: pad2 m ++ '.' :: pad4 y⟩

/-- One catalog row as returned by the upstream service:
`CatalogEntry` with an opaque id and a display name. -/
structure Entry where
  id : String
  name : String
deriving DecidableEq, Repr

/-- Embedding of `KrakówWasteAPIClient._calculate_number_match_score`
(src/api_client.py lines 112-151). -/
def calculate_number_match_score (user_input house_name : String) : Nat :=
  let u := toUpperL (pyStrip user_input.data)
  let h := toUpperL (pyStrip house_name.data)
  if u = h then 100
  else if isPrefixL u h then
    let remainder := pyStrip (h.drop u.length)
    if remainder ≠ [] ∧ remainder.length = 1 ∧ isAlphaC (remainder.headD 'A') then 97
    else if isPrefixL [' '] remainder ∧ remainder.length > 1 ∧
        (remainder.drop 1 ≠ [] ∧ (remainder.drop 1).all isAlnumC) then 95
    else if remainder ≠ [] ∧ isAlphaC (remainder.headD 'A') then 92
    else if remainder ≠ [] ∧ isDigitC (remainder.headD 'A') then 80
    else 85
  else if containsSub h u then
    if (splitWs h).any (fun w => isPrefixL u w) then 75 else 50
  else 0

/-- Embedding of `KrakówWasteAPIClient.find_street`
(src/api_client.py lines 61-79): case-insensitive exact name match first,
then first substring hit in catalog order.  The catalog list stands for
`get_streets()` output, handed in as data. -/
def find_street (streets : List Entry) (street_name : String) : Option Entry :=
  let q := toLowerL (pyStrip street_name.data)
  match streets.find? (fun s => decide (toLowerL s.name.data = q)) with
  | some s => some s
  | none => streets.find? (fun s => containsSub (toLowerL s.name.data) q)

/-- Loop body of `KrakówWasteAPIClient.find_house_number`
(src/api_client.py lines 164-176): keeps the best match seen so far,
updates on strictly greater score, breaks once a score reaches 100. -/
def findHouseLoop (q : String) : List Entry → Option Entry → Nat → Option Entry × Nat
  | [], best, bs => (best, bs)
  | h :: t, best, bs =>
    let s := calculate_number_match_score q h.name
    if s > bs then
      if s ≥ 100 then (some h, s) else findHouseLoop q t (some h) s
    else findHouseLoop q t best bs

/-- Embedding of `KrakówWasteAPIClient.find_house_number`
(src/api_client.py lines 153-183).  The house-number list stands for
`get_house_numbers(street_id)` output, handed in as data. -/
def find_house_number (houses : List Entry) (number_input : String) : Option Entry :=
  match findHouseLoop number_input houses none 0 with
  | (some e, bs) => if bs > 0 then some e else none
  | (none, _) => none

/-! ### Properties of the catalog resolver (src/api_client.py) -/

/-- Break-free version of the `find_house_number` loop, used to reason about
the early exit: since no score exceeds 100, breaking at 100 and scanning on
agree. -/
def scanHouseLoop (q : String) : List Entry → Option Entry → Nat → Option Entry × Nat
  | [], best, bs => (best, bs)
  | h :: t, best, bs =>
    let s := calculate_number_match_score q h.name
    if s > bs then scanHouseLoop q t (some h) s else scanHouseLoop q t best bs

theorem score_le_100 (q n : String) : calculate_number_match_score q n ≤ 100 := by
  unfold calculate_number_match_score
  dsimp only
  repeat' split
  all_goals omega

theorem scan_stall (q : String) (l : List Entry) (best : Option Entry) (bs : Nat)
    (h : 100 ≤ bs) : scanHouseLoop q l best bs = (best, bs) := by
  induction l with
  | nil => rfl
  | cons e t ih =>
    have hs := score_le_100 q e.name
    simp only [scanHouseLoop]
    rw [if_neg (by omega)]
    exact ih

theorem findHouseLoop_eq_scan (q : String) (l : List Entry) (best : Option Entry)
    (bs : Nat) : findHouseLoop q l best bs = scanHouseLoop q l best bs := by
  induction l generalizing best bs with
  | nil => rfl
  | cons e t ih =>
    have hs := score_le_100 q e.name
    simp only [findHouseLoop, scanHouseLoop]
    by_cases hgt : calculate_number_match_score q e.name > bs
    · rw [if_pos hgt, if_pos hgt]
      by_cases h100 : calculate_number_match_score q e.name ≥ 100
      · rw [if_pos h100, scan_stall q t _ _ (by omega)]
      · rw [if_neg h100]
        exact ih _ _
    · rw [if_neg hgt, if_neg hgt]
      exact ih _ _

theorem scan_append (q : String) (a b : List Entry) (best : Option Entry) (bs : Nat) :
    scanHouseLoop q (a ++ b) best bs =
      scanHouseLoop q b (scanHouseLoop q a best bs).1 (scanHouseLoop q a best bs).2 := by
  induction a generalizing best bs with
  | nil => rfl
  | cons h t ih =>
    simp only [List.cons_append, scanHouseLoop]
    by_cases hgt : calculate_number_match_score q h.name > bs
    · rw [if_pos hgt, if_pos hgt]; exact ih _ _
    · rw [if_neg hgt, if_neg hgt]; exact ih _ _

theorem scan_bs_le (q : String) (l : List Entry) (best : Option Entry) (bs : Nat)
    (h : bs ≤ 100) : (scanHouseLoop q l best bs).2 ≤ 100 := by
  induction l generalizing best bs with
  | nil => exact h
  | cons e t ih =>
    have hs := score_le_100 q e.name
    simp only [scanHouseLoop]
    by_cases hgt : calculate_number_match_score q e.name > bs
    · rw [if_pos hgt]; exact ih _ _ hs
    · rw [if_neg hgt]; exact ih _ _ h

theorem scan_result (q : String) (l : List Entry) (best : Option Entry) (bs : Nat) :
    (scanHouseLoop q l best bs = (best, bs) ∧
      ∀ e ∈ l, calculate_number_match_score q e.name ≤ bs) ∨
    (∃ e l1 l2, l = l1 ++ e :: l2 ∧
      scanHouseLoop q l best bs = (some e, calculate_number_match_score q e.name) ∧
      bs < calculate_number_match_score q e.name ∧
      (∀ x ∈ l1, calculate_number_match_score q x.name < calculate_number_match_score q e.name) ∧
      (∀ x ∈ l2, calculate_number_match_score q x.name ≤ calculate_number_match_score q e.name)) := by
  induction l generalizing best bs with
  | nil => left; exact ⟨rfl, by simp⟩
  | cons h t ih =>
    by_cases hgt : calculate_number_match_score q h.name > bs
    · have hstep : scanHouseLoop q (h :: t) best bs =
          scanHouseLoop q t (some h) (calculate_number_match_score q h.name) := by
        simp only [scanHouseLoop]; rw [if_pos hgt]
      rcases ih (some h) (calculate_number_match_score q h.name) with ⟨heq, hall⟩ | ⟨e, l1, l2, hsplit, heq, hlt, h1, h2⟩
      · right
        exact ⟨h, [], t, by simp, by rw [hstep, heq], hgt, by simp, hall⟩
      · right
        refine ⟨e, h :: l1, l2, by simp [hsplit], by rw [hstep, heq], by omega, ?_, h2⟩
        intro x hx
        rcases List.mem_cons.mp hx with rfl | hx
        · omega
        · exact h1 x hx
    · have hstep : scanHouseLoop q (h :: t) best bs = scanHouseLoop q t best bs := by
        simp only [scanHouseLoop]; rw [if_neg hgt]
      rcases ih best bs with ⟨heq, hall⟩ | ⟨e, l1, l2, hsplit, heq, hlt, h1, h2⟩
      · left
        refine ⟨by rw [hstep, heq], ?_⟩
        intro x hx
        rcases List.mem_cons.mp hx with rfl | hx
        · omega
        · exact hall x hx
      · right
        refine ⟨e, h :: l1, l2, by simp [hsplit], by rw [hstep, heq], hlt, ?_, h2⟩
        intro x hx
        rcases List.mem_cons.mp hx with rfl | hx
        · omega
        · exact h1 x hx

theorem find_eq_scan (houses : List Entry) (q : String) :
    find_house_number houses q =
      match scanHouseLoop q houses none 0 with
      | (some e, bs) => if bs > 0 then some e else none
      | (none, _) => none := by
  unfold find_house_number
  rw [findHouseLoop_eq_scan]

/-- C3: `find_house_number` returns the candidate with the strictly highest
score among those scoring above 0 (ties broken by catalog order, the earlier
entry wins), returns `none` rather than an error when every candidate scores
0, and the scan stops at the first candidate scoring 100: entries after it
cannot change the result. -/
theorem C3_find_house_number_spec (houses : List Entry) (q : String) :
    ((∀ e ∈ houses, calculate_number_match_score q e.name = 0) →
        find_house_number houses q = none) ∧
    (∀ e, find_house_number houses q = some e →
      0 < calculate_number_match_score q e.name ∧
      ∃ l1 l2, houses = l1 ++ e :: l2 ∧
        (∀ x ∈ l1, calculate_number_match_score q x.name < calculate_number_match_score q e.name) ∧
        (∀ x ∈ l2, calculate_number_match_score q x.name ≤ calculate_number_match_score q e.name)) ∧
    ((∃ x ∈ houses, 0 < calculate_number_match_score q x.name) →
        ∃ e, find_house_number houses q = some e) ∧
    (∀ l1 h l2, houses = l1 ++ h :: l2 → calculate_number_match_score q h.name = 100 →
      find_house_number houses q = find_house_number (l1 ++ [h]) q) := by
  refine ⟨?_, ?_, ?_, ?_⟩
  · intro hall
    rw [find_eq_scan]
    rcases scan_result q houses none 0 with ⟨heq, _⟩ | ⟨e, l1, l2, hsplit, heq, hlt, _, _⟩
    · rw [heq]
    · have : e ∈ houses := by rw [hsplit]; simp
      have := hall e this
      omega
  · intro e hfind
    rw [find_eq_scan] at hfind
    rcases scan_result q houses none 0 with ⟨heq, _⟩ | ⟨e0, l1, l2, hsplit, heq, hlt, h1, h2⟩
    · rw [heq] at hfind; simp at hfind
    · rw [heq] at hfind
      by_cases hz : calculate_number_match_score q e0.name > 0
      · simp only [if_pos hz] at hfind
        obtain rfl : e0 = e := by injection hfind
        exact ⟨hz, l1, l2, hsplit, h1, h2⟩
      · omega
  · rintro ⟨x, hx, hxs⟩
    rw [find_eq_scan]
    rcases scan_result q houses none 0 with ⟨_, hall⟩ | ⟨e, l1, l2, hsplit, heq, hlt, _, _⟩
    · have := hall x hx; omega
    · rw [heq]
      exact ⟨e, by simp [hlt]⟩
  · rintro l1 h l2 rfl h100
    rw [find_eq_scan, find_eq_scan]
    rw [scan_append, scan_append]
    have hle : (scanHouseLoop q l1 none 0).2 ≤ 100 := scan_bs_le q l1 none 0 (by omega)
    rcases Nat.lt_or_ge (scanHouseLoop q l1 none 0).2 100 with hlt | hge
    · have hstep1 : scanHouseLoop q (h :: l2) (scanHouseLoop q l1 none 0).1 (scanHouseLoop q l1 none 0).2 =
          scanHouseLoop q l2 (some h) 100 := by
        simp only [scanHouseLoop]
        rw [h100, if_pos (by omega)]
      have hstep2 : scanHouseLoop q [h] (scanHouseLoop q l1 none 0).1 (scanHouseLoop q l1 none 0).2 =
          (some h, 100) := by
        simp only [scanHouseLoop]
        rw [h100, if_pos (by omega)]
      rw [hstep1, hstep2, scan_stall q l2 _ _ (by omega)]
    · have h100eq : (scanHouseLoop q l1 none 0).2 = 100 := by omega
      have hstep1 : scanHouseLoop q (h :: l2) (scanHouseLoop q l1 none 0).1 (scanHouseLoop q l1 none 0).2 =
          ((scanHouseLoop q l1 none 0).1, (scanHouseLoop q l1 none 0).2) := by
        simp only [scanHouseLoop]
        rw [h100, h100eq, if_neg (by omega), scan_stall q l2 _ _ (by omega)]
      have hstep2 : scanHouseLoop q [h] (scanHouseLoop q l1 none 0).1 (scanHouseLoop q l1 none 0).2 =
          ((scanHouseLoop q l1 none 0).1, (scanHouseLoop q l1 none 0).2) := by
        simp only [scanHouseLoop]
        rw [h100, h100eq, if_neg (by omega)]
      rw [hstep1, hstep2]

/-- C3 witness: on the catalog [1 DJ, 3 CA] with query 3, some candidate
scores above 0 and the resolver returns an entry (spec Scenario B data). -/
theorem C3_find_house_number_witness :
    (∃ x ∈ ([⟨"1", "1 DJ"⟩, ⟨"2", "3 CA"⟩] : List Entry),
        0 < calculate_number_match_score "3" x.name) ∧
    ∃ e, find_house_number [⟨"1", "1 DJ"⟩, ⟨"2", "3 CA"⟩] "3" = some e :=
  ⟨by decide,
    (C3_find_house_number_spec [⟨"1", "1 DJ"⟩, ⟨"2", "3 CA"⟩] "3").2.2.1 (by decide)⟩

theorem dropWhile_head_false {p : Char → Bool} :
    ∀ (l : List Char) (a : Char) (t : List Char), l.dropWhile p = a :: t → p a = false := by
  intro l
  induction l with
  | nil => intro a t h; simp [List.dropWhile] at h
  | cons c cs ih =>
    intro a t h
    by_cases hc : p c
    · rw [List.dropWhile_cons_of_pos hc] at h
      exact ih a t h
    · rw [List.dropWhile_cons_of_neg hc] at h
      obtain ⟨rfl, -⟩ : c = a ∧ cs = t := by injection h with h1 h2; exact ⟨h1, h2⟩
      simpa using hc

theorem pyStrip_not_startswith_space (cs : List Char) :
    isPrefixL [' '] (pyStrip cs) = false := by
  unfold pyStrip
  rcases heq : ((cs.dropWhile isSpaceC).reverse.dropWhile isSpaceC).reverse with _ | ⟨c, t⟩
  · rfl
  · have hsuf : (cs.dropWhile isSpaceC).reverse.dropWhile isSpaceC <:+ (cs.dropWhile isSpaceC).reverse :=
      List.dropWhile_suffix _
    have hpre : ((cs.dropWhile isSpaceC).reverse.dropWhile isSpaceC).reverse <+: cs.dropWhile isSpaceC := by
      apply List.reverse_suffix.mp
      simpa using hsuf
    rw [heq] at hpre
    obtain ⟨r, hr⟩ := hpre
    have hhead : isSpaceC c = false := by
      exact dropWhile_head_false cs c (t ++ r) hr.symm
    have hc : ¬ (' ' == c) := by
      intro hcc
      have hce : c = ' ' := (eq_of_beq hcc).symm
      rw [hce] at hhead
      simp [isSpaceC] at hhead
    simp [isPrefixL, hc]

/-- The 95-score branch of `_calculate_number_match_score` is unreachable:
the remainder is stripped before the branch tests whether it starts with a
space, so no pair of inputs ever scores 95. -/
theorem score_never_95 (q c : String) : calculate_number_match_score q c ≠ 95 := by
  unfold calculate_number_match_score
  dsimp only
  repeat' split
  all_goals simp_all [pyStrip_not_startswith_space]

/-- C2 counterexample: the scores the claim lists for queries against
candidates 3CA, 3C DJ and 3C1 are not what the code computes — the stripped
remainders CA, C DJ and C1 all start with a letter and have length above
one, so each falls into the 92 branch. -/
theorem C2_score_ladder_counterexample :
    calculate_number_match_score "3" "3CA" ≠ 97 ∧
    calculate_number_match_score "3" "3C DJ" ≠ 95 ∧
    calculate_number_match_score "3" "3C1" ≠ 80 := by decide

/-- C2 amended: the scores the code actually produces on the claim's pairs.
Because the remainder is left- and right-stripped before inspection, the
space branch (95) can never fire and every remainder that starts with a
letter but is longer than one character scores 92. -/
theorem C2_score_ladder_amended :
    calculate_number_match_score "3" "3CA" = 92 ∧
    calculate_number_match_score "3" "3C DJ" = 92 ∧
    calculate_number_match_score "3" "3CAB" = 92 ∧
    calculate_number_match_score "3" "3C1" = 92 ∧
    calculate_number_match_score "1" "1" = 100 ∧
    calculate_number_match_score "3" "3C" = 97 := by decide

/-- C9 counterexample: the query differs from the second entry's name only
in letter case, yet `find_street` returns the first entry — the code strips
the query but not the catalog names, so a name with surrounding whitespace
is never matched exactly and the substring fallback picks an earlier entry. -/
theorem C9_find_street_counterexample :
    find_street [⟨"1", "AX"⟩, ⟨"2", " a"⟩] " A" = some ⟨"1", "AX"⟩ ∧
    toLowerL " A".data = toLowerL " a".data ∧
    (⟨"1", "AX"⟩ : Entry) ≠ (⟨"2", " a"⟩ : Entry) := by decide

/-- C9 amended: `find_street` compares the lower-cased, stripped query
against lower-cased (unstripped) names: the first case-insensitive exact
match is returned; otherwise the first catalog entry, in upstream order,
whose name contains the query as a substring; otherwise `none`.  When the
query carries no surrounding whitespace, a query equal to some entry's name
up to letter case yields an entry whose name equals the query up to letter
case (the first such). -/
theorem C9_find_street_amended (streets : List Entry) (q : String) :
    (∀ s, streets.find? (fun s => decide (toLowerL s.name.data = toLowerL (pyStrip q.data))) = some s →
        find_street streets q = some s) ∧
    (streets.find? (fun s => decide (toLowerL s.name.data = toLowerL (pyStrip q.data))) = none →
        find_street streets q =
          streets.find? (fun s => containsSub (toLowerL s.name.data) (toLowerL (pyStrip q.data)))) ∧
    (pyStrip q.data = q.data →
      ∀ s ∈ streets, toLowerL s.name.data = toLowerL q.data →
        ∃ s2, find_street streets q = some s2 ∧ toLowerL s2.name.data = toLowerL q.data) := by
  refine ⟨?_, ?_, ?_⟩
  · intro s hs
    unfold find_street
    dsimp only
    rw [hs]
  · intro hnone
    unfold find_street
    dsimp only
    rw [hnone]
  · intro hq s hs hname
    unfold find_street
    dsimp only
    rcases hfind : streets.find? (fun s => decide (toLowerL s.name.data = toLowerL (pyStrip q.data))) with _ | s0
    · exfalso
      rw [List.find?_eq_none] at hfind
      have hbad := hfind s hs
      rw [hq] at hbad
      simp [hname] at hbad
    · have hp := List.find?_some hfind
      rw [hq] at hp
      exact ⟨s0, by rw [hfind], of_decide_eq_true hp⟩

/-- C9 witness: an upper-cased query against a one-entry catalog returns
that entry. -/
theorem C9_find_street_witness :
    (pyStrip "KRAKOWSKA".data = "KRAKOWSKA".data ∧
      (⟨"39936", "Krakowska"⟩ : Entry) ∈ ([⟨"39936", "Krakowska"⟩] : List Entry) ∧
      toLowerL "Krakowska".data = toLowerL "KRAKOWSKA".data) ∧
    ∃ s2, find_street [⟨"39936", "Krakowska"⟩] "KRAKOWSKA" = some s2 ∧
      toLowerL s2.name.data = toLowerL "KRAKOWSKA".data :=
  ⟨⟨by decide, by decide, by decide⟩,
    (C9_find_street_amended [⟨"39936", "Krakowska"⟩] "KRAKOWSKA").2.2 (by decide)
      ⟨"39936", "Krakowska"⟩ (by decide) (by decide)⟩

/-! ### Regex machinery for the OCR-parser patterns (src/ocr_parser.py)

The patterns are embedded one by one as match-at-position functions over
`List Char`, following the backtracking order of the `re` engine.  Greedy
pieces whose follower cannot overlap them (`\s+` before a letter, `\w+`
before a separator, `\d*` before a letter) are matched by maximal munch,
which is what the engine's backtracking converges to there; the `{1,2}`
counters and the lazy group, where backtracking is observable, are spelled
out explicitly. -/

/-- Case-insensitive literal: consumes `pat` (written lower-case) from the
input, comparing lower-cased input characters; returns the consumed
original-case slice and the rest. -/
def matchLitCI : List Char → List Char → Option (List Char × List Char)
  | [], cs => some ([], cs)
  | _ :: _, [] => none
  | p :: ps, c :: cs =>
    if lowerChar c == p then
      match matchLitCI ps cs with
      | some (con, rest) => some (c :: con, rest)
      | none => none
    else none

/-- Ordered alternation of case-insensitive literals (regex `a|b|...`) at
the end of a group: the first alternative that matches wins, as in the
engine when nothing after the group can fail. -/
def matchAltCI (alts : List (List Char)) (cs : List Char) : Option (List Char × List Char) :=
  alts.findSome? (fun a => matchLitCI a cs)

/-- Regex `\s+` by maximal munch: consumed run and rest. -/
def matchWsPlus : List Char → Option (List Char × List Char)
  | [] => none
  | c :: cs =>
    if isSpaceC c then some (c :: cs.takeWhile isSpaceC, cs.dropWhile isSpaceC) else none

/-- Two digits (the greedy reading of `\d{1,2}`, and `\d{2}` exactly). -/
def matchDigits2 : List Char → Option (List Char × List Char)
  | a :: b :: rest => if isDigitC a && isDigitC b then some ([a, b], rest) else none
  | _ => none

/-- One digit (the backtracked reading of `\d{1,2}`). -/
def matchDigits1 : List Char → Option (List Char × List Char)
  | a :: rest => if isDigitC a then some ([a], rest) else none
  | [] => none

/-- Regex `\d{4}`: exactly four digits. -/
def matchDigits4 : List Char → Option (List Char × List Char)
  | a :: b :: c :: d :: rest =>
    if isDigitC a && isDigitC b && isDigitC c && isDigitC d then
      some ([a, b, c, d], rest)
    else none
  | _ => none

/-- Separator class `[./\-]`. -/
def matchSep : List Char → Option (List Char)
  | c :: rest => if c == '.' || c == '/' || c == '-' then some rest else none
  | [] => none

/-- Month-name alternation of the first `extract_dates` pattern
(src/ocr_parser.py line 329), in source order. -/
def p1MonthAlts : List (List Char) :=
  ["stycznia", "lutego", "marca", "kwietnia", "maja", "czerwca", "lipca",
   "sierpnia", "września", "wrzesnia", "października", "pazdziernika",
   "pażdziernika", "poździernika", "listopadu", "grudnia"].map String.data

/-- Match-at-position for pattern 1, `(\d{1,2})\s+(month-name)`. -/
def matchP1At (cs : List Char) : Option ((List Char × List Char) × List Char) :=
  (do
    let (d, r1) ← matchDigits2 cs
    let (_, r2) ← matchWsPlus r1
    let (m, r3) ← matchAltCI p1MonthAlts r2
    pure ((d, m), r3)) <|>
  (do
    let (d, r1) ← matchDigits1 cs
    let (_, r2) ← matchWsPlus r1
    let (m, r3) ← matchAltCI p1MonthAlts r2
    pure ((d, m), r3))

/-- Month-and-year tail of pattern 2, `[./\-](\d{1,2})[./\-](\d{4})`,
with the month counter backtracking from two digits to one. -/
def p2Tail (d r1 : List Char) : Option ((List Char × List Char × List Char) × List Char) := do
  let r2 ← matchSep r1
  (do
    let (m, r3) ← matchDigits2 r2
    let r4 ← matchSep r3
    let (y, r5) ← matchDigits4 r4
    pure ((d, m, y), r5)) <|>
  (do
    let (m, r3) ← matchDigits1 r2
    let r4 ← matchSep r3
    let (y, r5) ← matchDigits4 r4
    pure ((d, m, y), r5))

/-- Match-at-position for pattern 2, `(\d{1,2})[./\-](\d{1,2})[./\-](\d{4})`. -/
def matchP2At (cs : List Char) : Option ((List Char × List Char × List Char) × List Char) :=
  (do let (d, r1) ← matchDigits2 cs; p2Tail d r1) <|>
  (do let (d, r1) ← matchDigits1 cs; p2Tail d r1)

/-- Month-and-year tail of pattern 3, `[./\-](\d{1,2})[./\-](\d{2})`. -/
def p3Tail (d r1 : List Char) : Option ((List Char × List Char × List Char) × List Char) := do
  let r2 ← matchSep r1
  (do
    let (m, r3) ← matchDigits2 r2
    let r4 ← matchSep r3
    let (y, r5) ← matchDigits2 r4
    pure ((d, m, y), r5)) <|>
  (do
    let (m, r3) ← matchDigits1 r2
    let r4 ← matchSep r3
    let (y, r5) ← matchDigits2 r4
    pure ((d, m, y), r5))

/-- Match-at-position for pattern 3, `(\d{1,2})[./\-](\d{1,2})[./\-](\d{2})`. -/
def matchP3At (cs : List Char) : Option ((List Char × List Char × List Char) × List Char) :=
  (do let (d, r1) ← matchDigits2 cs; p3Tail d r1) <|>
  (do let (d, r1) ← matchDigits1 cs; p3Tail d r1)

/-- Month-and-year tail of pattern 4, `\s+(\d{1,2})\s+(\d{4})`. -/
def p4Tail (d r1 : List Char) : Option ((List Char × List Char × List Char) × List Char) := do
  let (_, r2) ← matchWsPlus r1
  (do
    let (m, r3) ← matchDigits2 r2
    let (_, r4) ← matchWsPlus r3
    let (y, r5) ← matchDigits4 r4
    pure ((d, m, y), r5)) <|>
  (do
    let (m, r3) ← matchDigits1 r2
    let (_, r4) ← matchWsPlus r3
    let (y, r5) ← matchDigits4 r4
    pure ((d, m, y), r5))

/-- Match-at-position for pattern 4, `(\d{1,2})\s+(\d{1,2})\s+(\d{4})`. -/
def matchP4At (cs : List Char) : Option ((List Char × List Char × List Char) × List Char) :=
  (do let (d, r1) ← matchDigits2 cs; p4Tail d r1) <|>
  (do let (d, r1) ← matchDigits1 cs; p4Tail d r1)

/-- Python `re.finditer`: scan left to right, first position where the
pattern matches, then continue after the match (non-overlapping).  Yields
the captures and the matched slice (`group(0)`).  Every pattern in scope
consumes at least one character; the inner guard only keeps the recursion
on fuel honest. -/
def finditerGo {α : Type} (matchAt : List Char → Option (α × List Char)) :
    Nat → List Char → List (α × List Char)
  | 0, _ => []
  | _, [] => []
  | fuel + 1, c :: rest =>
    match matchAt (c :: rest) with
    | some (a, after) =>
      (a, (c :: rest).take ((c :: rest).length - after.length)) ::
        (if after.length < rest.length + 1 then finditerGo matchAt fuel after
         else finditerGo matchAt fuel rest)
    | none => finditerGo matchAt fuel rest

/-- Python `re.finditer` wrapper (fuel = input length, always sufficient). -/
def finditer {α : Type} (matchAt : List Char → Option (α × List Char))
    (cs : List Char) : List (α × List Char) :=
  finditerGo matchAt cs.length cs

/-- Python `re.search`: the match at the first position where one exists. -/
def searchFirst {α : Type} (f : List Char → Option α) : List Char → Option α
  | [] => f []
  | c :: rest =>
    match f (c :: rest) with
    | some x => some x
    | none => searchFirst f rest

/-! ### The OCR parser's tables and date extraction -/

/-- The `polish_months` dictionary (src/ocr_parser.py lines 65-78), in
insertion order. -/
def polishMonths : List (List Char × List Char) :=
  [("stycznia", "01"), ("stycznie", "01"), ("stycze", "01"),
   ("lutego", "02"), ("luty", "02"), ("lut", "02"),
   ("marca", "03"), ("marzec", "03"), ("mar", "03"),
   ("kwietnia", "04"), ("kwiecień", "04"), ("kwi", "04"),
   ("maja", "05"), ("maj", "05"),
   ("czerwca", "06"), ("czerwiec", "06"), ("cze", "06"),
   ("lipca", "07"), ("lipiec", "07"), ("lip", "07"),
   ("sierpnia", "08"), ("sierpień", "08"), ("sie", "08"),
   ("września", "09"), ("wrzesień", "09"), ("wrz", "09"), ("wrzesnia", "09"),
   ("października", "10"), ("październik", "10"), ("paź", "10"),
   ("pazdziernika", "10"), ("pażdziernika", "10"), ("poździernika", "10"),
   ("pa dziernika", "10"), ("paż dziernika", "10"), ("pa z dziernika", "10"),
   ("listopada", "11"), ("listopad", "11"), ("lis", "11"),
   ("grudnia", "12"), ("grudzień", "12"), ("gru", "12")].map
    (fun p => (p.1.data, p.2.data))

/-- Python `self.polish_months.get(name, '01')`. -/
def monthLookup (name : List Char) : List Char :=
  match polishMonths.find? (fun p => decide (p.1 = name)) with
  | some p => p.2
  | none => "01".data

/-- The CollectionDate dictionary built by the parser: ISO date, display
date, weekday name, matched raw text, inferred flag, and the waste type the
reconstructor attaches (the explicit-date dictionaries carry no
`waste_type` key, modelled as `none`). -/
structure DateInfo where
  date : String
  formatted : String
  weekday : String
  raw_text : String
  inferred : Bool
  waste_type : Option String
deriving DecidableEq, Repr

/-- Shared constructor for the parser's date dictionaries: the `datetime`
validation then the three `strftime` renderings; `none` models the
`ValueError` path that drops the match silently. -/
def mkDateOpt (y m d : Nat) (raw : List Char) (inferred : Bool)
    (wt : Option String) : Option DateInfo :=
  if validDate y m d then
    some ⟨isoStr y m d, fmtStr y m d, ⟨weekdayName y m d⟩, ⟨raw⟩, inferred, wt⟩
  else none

/-- Processing of one month-name match in `extract_dates` (src/ocr_parser.py
lines 342-358 and 372-384): month lookup with default '01' and the year
inference against the current clock. -/
def processP1 (cy cm : Nat) (day monthName raw : List Char) : Option DateInfo :=
  if day = [] ∨ monthName = [] then none
  else
    let month := monthLookup (toLowerL monthName)
    let year := if digitsToNat month ≤ 3 ∧ 10 ≤ cm then cy + 1 else cy
    mkDateOpt year (digitsToNat month) (digitsToNat day) raw false none

/-- Processing of one three-group numeric match in `extract_dates`
(src/ocr_parser.py lines 359-384): month-name lookup when the month group
is a known name, 2-digit year expansion by a leading "20". -/
def process3 (day month year raw : List Char) : Option DateInfo :=
  if day = [] ∨ month = [] ∨ year = [] then none
  else
    let month :=
      if (polishMonths.find? (fun p => decide (p.1 = toLowerL month))).isSome then
        monthLookup (toLowerL month)
      else month
    let year := if year.length = 2 then '2' :: '0' :: year else year
    mkDateOpt (digitsToNat year) (digitsToNat month) (digitsToNat day) raw false none

/-- All raw matches of the four `extract_dates` patterns in pattern order,
each processed to a CollectionDate (src/ocr_parser.py lines 336-384). -/
def allDateMatches (cs : List Char) (cy cm : Nat) : List DateInfo :=
  (finditer matchP1At cs).filterMap (fun g => processP1 cy cm g.1.1 g.1.2 g.2) ++
  (finditer matchP2At cs).filterMap (fun g => process3 g.1.1 g.1.2.1 g.1.2.2 g.2) ++
  (finditer matchP3At cs).filterMap (fun g => process3 g.1.1 g.1.2.1 g.1.2.2 g.2) ++
  (finditer matchP4At cs).filterMap (fun g => process3 g.1.1 g.1.2.1 g.1.2.2 g.2)

/-- The duplicate-removal loop of `extract_dates` (lines 389-395): keep the
first occurrence of each ISO date, in order. -/
def dedupByIso : List DateInfo → List String → List DateInfo
  | [], _ => []
  | d :: ds, seen =>
    if d.date ∈ seen then dedupByIso ds seen
    else d :: dedupByIso ds (d.date :: seen)

/-- Python string comparison (code-point lexicographic), the order
`sorted(..., key=lambda x: x['date'])` sorts by. -/
def strLtB : List Char → List Char → Bool
  | [], [] => false
  | [], _ :: _ => true
  | _ :: _, [] => false
  | a :: as, b :: bs => decide (a.toNat < b.toNat) || (a == b && strLtB as bs)

/-- Insertion step of the sort; after deduplication all keys are distinct,
so the stability of Python `sorted` cannot be observed and insertion sort
computes the same list. -/
def insertByDate (d : DateInfo) : List DateInfo → List DateInfo
  | [] => [d]
  | e :: t => if strLtB e.date.data d.date.data then e :: insertByDate d t else d :: e :: t

/-- Ascending sort by ISO date (line 397). -/
def sortByDate : List DateInfo → List DateInfo
  | [] => []
  | d :: t => insertByDate d (sortByDate t)

/-- Embedding of `extract_dates` (src/ocr_parser.py lines 322-397): all
pattern matches in pattern order, deduplicated by ISO date keeping first
occurrences, then sorted ascending by ISO date.  `cy, cm` stand for
`datetime.now()`'s year and month. -/
def extract_dates (text : String) (cy cm : Nat) : List DateInfo :=
  sortByDate (dedupByIso (allDateMatches text.data cy cm) [])

/-! ### Date reconstruction (src/ocr_parser.py lines 231-320) -/

/-- Weekday alternation of the reconstruction pattern (line 236). -/
def reconWeekdayAlts : List (List Char) :=
  ["poniedzialek", "wtorek", "sroda", "czwartek", "piatek", "sobota",
   "niedziela"].map String.data

/-- Month alternation of the reconstruction pattern (line 236). -/
def reconMonthAlts : List (List Char) :=
  ["wrzesnia", "pazdziernika", "pażdziernika", "poździernika", "listopada",
   "grudnia"].map String.data

/-- Category alternation of the reconstruction pattern (line 236). -/
def reconCatAlts : List (List Char) :=
  ["zielone", "bio", "papier", "szklo", "tworzywa", "zmieszane"].map String.data

/-- Match-at-position for the reconstruction pattern (line 236):
`(weekday)[;,]\s*(month)\s+krakowska\s+\d*\s*(category)`. -/
def matchReconAt (cs : List Char) :
    Option ((List Char × List Char × List Char) × List Char) := do
  let (w, r1) ← matchAltCI reconWeekdayAlts cs
  let r2 ← (match r1 with
    | c :: rest => if c == ';' || c == ',' then some rest else none
    | [] => none)
  let r3 := r2.dropWhile isSpaceC
  let (m, r4) ← matchAltCI reconMonthAlts r3
  let (_, r5) ← matchWsPlus r4
  let (_, r6) ← matchLitCI "krakowska".data r5
  let (_, r7) ← matchWsPlus r6
  let r8 := r7.dropWhile isDigitC
  let r9 := r8.dropWhile isSpaceC
  let (cat, r10) ← matchAltCI reconCatAlts r9
  pure ((w, m, cat), r10)

/-- One insertion into the insertion-ordered grouping dictionary
`weekday_month_counts` (lines 272-279). -/
def addGroup (key : List Char × List Char) (v : List Char) :
    List ((List Char × List Char) × List (List Char)) →
      List ((List Char × List Char) × List (List Char))
  | [] => [(key, [v])]
  | (k, vs) :: rest =>
    if k = key then (k, vs ++ [v]) :: rest else (k, vs) :: addGroup key v rest

/-- Grouping of the reconstruction matches by lower-cased (weekday, month),
collecting the matched waste-type tokens per group in order. -/
def groupMatches (ms : List ((List Char × List Char × List Char) × List Char)) :
    List ((List Char × List Char) × List (List Char)) :=
  ms.foldl (fun acc g => addGroup (toLowerL g.1.1, toLowerL g.1.2.1) g.1.2.2 acc) []

/-- The `weekday_patterns` dictionary (lines 81-92). -/
def weekdayPatterns : List (List Char × List Char) :=
  [("poniedziałek", "monday"), ("poniedzialek", "monday"), ("wtorek", "tuesday"),
   ("środa", "wednesday"), ("sroda", "wednesday"), ("czwartek", "thursday"),
   ("piątek", "friday"), ("piatek", "friday"), ("sobota", "saturday"),
   ("niedziela", "sunday")].map (fun p => (p.1.data, p.2.data))

/-- Python `self.weekday_patterns.get(weekday, weekday)`. -/
def weekdayLookup (w : List Char) : List Char :=
  match weekdayPatterns.find? (fun p => decide (p.1 = w)) with
  | some p => p.2
  | none => w

/-- The `september_inference` table (lines 256-262). -/
def septemberInference (wd : List Char) : List Nat :=
  if wd = "monday".data then [2, 9, 16, 23, 30]
  else if wd = "tuesday".data then [3, 10, 17, 24]
  else if wd = "wednesday".data then [4, 11, 18, 25]
  else if wd = "thursday".data then [5, 12, 19, 26]
  else if wd = "friday".data then [6, 13, 20, 27]
  else []

/-- The `october_inference` table (lines 264-270). -/
def octoberInference (wd : List Char) : List Nat :=
  if wd = "monday".data then [6, 13, 20, 27]
  else if wd = "tuesday".data then [7, 14, 21, 28]
  else if wd = "wednesday".data then [1, 8, 15, 22, 29]
  else if wd = "thursday".data then [2, 9, 16, 23, 30]
  else if wd = "friday".data then [3, 10, 17, 24, 31]
  else []

/-- Decimal rendering of a number below 100 without padding, the f-string
rendering of the day in `raw_text` (line 313). -/
def natDigits2 (n : Nat) : List Char :=
  if n < 10 then [digitChar n] else pad2 n

/-- Per-group date synthesis of `reconstruct_missing_dates` (lines 284-318):
month dispatch by substring test, table prefix of length equal to the
number of category mentions, `datetime` construction per selected day.
Since the selection never exceeds the mention count, `waste_types[i]`
always exists and the zip pairs each selected day with its mention. -/
def reconGroup (weekday month : List Char) (waste_types : List (List Char)) :
    List DateInfo :=
  let weekday_en := weekdayLookup weekday
  if weekday_en = [] then []
  else
    let pick := fun (month_num : Nat) (tbl : List Nat) =>
      ((tbl.take waste_types.length).zip waste_types).filterMap
        (fun p => mkDateOpt 2025 month_num p.1 (natDigits2 p.1 ++ ' ' :: month)
          true (some ⟨p.2⟩))
    if containsSub month "wrzesnia".data then
      pick 9 (septemberInference weekday_en)
    else if containsSub month "pazdziernika".data ∨
        containsSub month "pażdziernika".data ∨
        containsSub month "poździernika".data then
      pick 10 (octoberInference weekday_en)
    else []

/-- Embedding of `reconstruct_missing_dates` (src/ocr_parser.py lines
231-320).  The explicit-date scan at lines 242-249 feeds only a print and
does not affect the return value, so it is not modelled. -/
def reconstruct_missing_dates (text : String) : List DateInfo :=
  (groupMatches (finditer matchReconAt text.data)).flatMap
    (fun g => reconGroup g.1.1 g.1.2 g.2)

/-! ### Waste types, categorization and the schedule record -/

/-- The `waste_types` lexicon (lines 95-112), in insertion order. -/
def wasteTypesLex : List (List Char × List Char) :=
  [("odpady zmieszane", "Mixed Waste"), ("zmieszane", "Mixed Waste"),
   ("bio", "Bio/Organic"), ("organiczne", "Bio/Organic"),
   ("szkło", "Glass"), ("szklo", "Glass"), ("papier", "Paper"),
   ("plastik", "Plastic"), ("tworzywa sztuczne", "Plastic"),
   ("tworzywa", "Plastic"), ("metale", "Metal"),
   ("odpady wielkogabarytowe", "Large Items"),
   ("wielkogabarytowe", "Large Items"), ("odpady zielone", "Garden Waste"),
   ("zielone", "Garden Waste"), ("selektywne", "Selective/Recycling")].map
    (fun p => (p.1.data, p.2.data))

/-- Embedding of `extract_waste_types` (lines 399-410): substring scan of
the lexicon in insertion order, case-sensitive as in the source. -/
def extract_waste_types (cs : List Char) : List (String × String) :=
  wasteTypesLex.filterMap (fun p =>
    if containsSub cs p.1 then some ((⟨p.1⟩ : String), (⟨p.2⟩ : String)) else none)

/-- Polish letters of the source's character classes, both cases: the
subset of Unicode word characters this data can contain beyond ASCII. -/
def polishLetters : List Char :=
  ['ą', 'ć', 'ę', 'ł', 'ń', 'ó', 'ś', 'ż', 'ź',
   'Ą', 'Ć', 'Ę', 'Ł', 'Ń', 'Ó', 'Ś', 'Ż', 'Ź']

/-- Regex `\w` over the characters this data can contain. -/
def isWordC (c : Char) : Bool := isAlnumC c || c == '_' || c ∈ polishLetters

/-- Category alternation of the categorization pattern (line 453);
"tworzywa sztuczne" is tried before its prefix "tworzywa", as in the
source order. -/
def catAlts2 : List (List Char) :=
  ["zielone", "bio", "zmieszane", "papier", "szkło", "szklo",
   "tworzywa sztuczne", "tworzywa"].map String.data

/-- The lazy tail `([^,;]+?)\s+(category)` of the categorization pattern:
the lazy group grows one character at a time (shortest first), exactly the
engine's exploration order; the growth stops at `,`/`;` which the class
excludes. -/
def lazyThenCat : List Char → List Char → Option ((List Char × List Char) × List Char)
  | _, [] => none
  | acc, c :: rest =>
    if c == ',' || c == ';' then none
    else
      match (do
        let (_, r1) ← matchWsPlus rest
        let (cat, r2) ← matchAltCI catAlts2 r1
        pure (cat, r2)) with
      | some (cat, r2) => some (((c :: acc).reverse, cat), r2)
      | none => lazyThenCat (c :: acc) rest

/-- The greedy `\s+` before the lazy group, giving back from the maximal
run down to one character, launching the lazy group after each choice. -/
def ws1Lazy (cs : List Char) : Nat → Option ((List Char × List Char) × List Char)
  | 0 => none
  | k + 1 =>
    match lazyThenCat [] (cs.drop (k + 1)) with
    | some r => some r
    | none => ws1Lazy cs k

/-- Match-at-position for the categorization pattern (line 453):
`(\w+)[,;]\s*(\d{1,2})\s+(\w+)\s+([^,;]+?)\s+(category)`; the day-of-week
and address groups are matched but unused downstream. -/
def matchCatAt (cs : List Char) :
    Option ((List Char × List Char × List Char) × List Char) :=
  let dow := cs.takeWhile isWordC
  if dow = [] then none
  else
    match cs.dropWhile isWordC with
    | [] => none
    | c :: rest =>
      if c == ',' || c == ';' then
        let r3 := rest.dropWhile isSpaceC
        match (do
            let (d, r) ← matchDigits2 r3
            let (_, r2) ← matchWsPlus r
            pure (d, r2)) <|>
          (do
            let (d, r) ← matchDigits1 r3
            let (_, r2) ← matchWsPlus r
            pure (d, r2)) with
        | none => none
        | some (day, r5) =>
          let mon := r5.takeWhile isWordC
          if mon = [] then none
          else
            let r6 := r5.dropWhile isWordC
            let wsRun := r6.takeWhile isSpaceC
            if wsRun = [] then none
            else
              match ws1Lazy r6 wsRun.length with
              | some ((_, cat), rest2) => some ((day, mon, cat), rest2)
              | none => none
      else none

/-- The four-key date dictionary `categorize_dates` builds (lines 491-496). -/
structure CatEntry where
  date : String
  formatted : String
  weekday : String
  raw_text : String
deriving DecidableEq, Repr

/-- The waste-token to canonical-category mapping used by both paths of
`categorize_dates` (lines 460-474 and 511-525), on the lower-cased token. -/
def categoryOf (wt : List Char) : String :=
  if wt = "zielone".data then "Garden Waste"
  else if wt = "bio".data then "Bio/Organic"
  else if wt = "zmieszane".data then "Mixed Waste"
  else if wt = "papier".data then "Paper"
  else if wt = "szkło".data ∨ wt = "szklo".data then "Glass"
  else if containsSub wt "tworzywa".data then "Plastic"
  else "Other"

/-- One insertion into the insertion-ordered category dictionary. -/
def addCat (key : String) (v : CatEntry) :
    List (String × List CatEntry) → List (String × List CatEntry)
  | [] => [(key, [v])]
  | (k, vs) :: rest =>
    if k = key then (k, vs ++ [v]) :: rest else (k, vs) :: addCat key v rest

/-- Date building for one explicit categorization match (lines 476-504):
month lookup with default '01', the year inference against the clock,
`datetime` validation; `raw_text` is the f-string of day and month. -/
def catPrimary (cy cm : Nat) (day mon : List Char) : Option CatEntry :=
  let month_num := digitsToNat (monthLookup (toLowerL mon))
  let year := if month_num ≤ 3 ∧ 10 ≤ cm then cy + 1 else cy
  if validDate year month_num (digitsToNat day) then
    some ⟨isoStr year month_num (digitsToNat day),
          fmtStr year month_num (digitsToNat day),
          ⟨weekdayName year month_num (digitsToNat day)⟩,
          ⟨day ++ ' ' :: mon⟩⟩
  else none

/-- Embedding of `categorize_dates` (src/ocr_parser.py lines 447-538):
the explicit-pattern pass over the text, then the inferred dates that carry
a waste type, both through the same category lexicon, appended into an
insertion-ordered category dictionary. -/
def categorize_dates (cs : List Char) (dates : List DateInfo) (cy cm : Nat) :
    List (String × List CatEntry) :=
  let primary := (finditer matchCatAt cs).foldl (fun acc g =>
    match catPrimary cy cm g.1.1 g.1.2.1 with
    | some e => addCat (categoryOf (toLowerL g.1.2.2)) e acc
    | none => acc) []
  dates.foldl (fun acc di =>
    match di.waste_type with
    | some wt =>
      if di.inferred then
        addCat (categoryOf (toLowerL wt.data))
          ⟨di.date, di.formatted, di.weekday, di.raw_text⟩ acc
      else acc
    | none => acc) primary

/-- Test for `[a-z]` under IGNORECASE: an ASCII letter of either case. -/
def isAzCI (c : Char) : Bool := 97 ≤ (lowerChar c).toNat && (lowerChar c).toNat ≤ 122

/-- Match-at-position for the address pattern `(krakowska)\s+(\d+[a-z]*)`
(line 415); `\d+` and `[a-z]*` by maximal munch (nothing follows them). -/
def matchAddrAt (cs : List Char) : Option ((List Char × List Char) × List Char) := do
  let (st, r1) ← matchLitCI "krakowska".data cs
  let (_, r2) ← matchWsPlus r1
  match r2 with
  | c :: rest =>
    if isDigitC c then
      let digits := c :: rest.takeWhile isDigitC
      let r3 := rest.dropWhile isDigitC
      pure ((st, digits ++ r3.takeWhile isAzCI), r3.dropWhile isAzCI)
    else none
  | [] => none

/-- Character class `[a-ząćęłńóśżź]` under IGNORECASE. -/
def isAddrLetter (c : Char) : Bool := isAzCI c || c ∈ polishLetters

/-- Match-at-position for the fallback address pattern
`([a-ząćęłńóśżź]+)\s+(\d+[a-z]*)` (line 423). -/
def matchFallbackAddrAt (cs : List Char) :
    Option ((List Char × List Char) × List Char) :=
  let st := cs.takeWhile isAddrLetter
  if st = [] then none
  else
    (do
      let (_, r2) ← matchWsPlus (cs.dropWhile isAddrLetter)
      match r2 with
      | c :: rest =>
        if isDigitC c then
          let digits := c :: rest.takeWhile isDigitC
          let r3 := rest.dropWhile isDigitC
          pure ((st, digits ++ r3.takeWhile isAzCI), r3.dropWhile isAzCI)
        else none
      | [] => none)

/-- Python `str.capitalize` (ASCII model): first character upper-cased,
the rest lower-cased. -/
def capitalizeL : List Char → List Char
  | [] => []
  | c :: cs => upperChar c :: toLowerL cs

/-- The dictionary returned by `extract_schedule_info` (lines 438-445);
the file metadata `parse_schedule_file` adds afterwards is host-side and
not carried by the core record. -/
structure ScheduleInfo where
  address : String
  house_number : String
  dates : List DateInfo
  waste_types : List (String × String)
  categorized_schedule : List (String × List CatEntry)
  total_collections : Nat
deriving DecidableEq, Repr

/-- Embedding of `extract_schedule_info` (src/ocr_parser.py lines 412-445):
address search with fallback and "Unknown" default, explicit date
extraction, waste-type scan, categorization, and the collection count. -/
def extract_schedule_info (text : String) (cy cm : Nat) : ScheduleInfo :=
  let cs := text.data
  let addr :=
    match searchFirst matchAddrAt cs with
    | some (g, _) => some (capitalizeL g.1, g.2)
    | none =>
      match searchFirst matchFallbackAddrAt cs with
      | some (g, _) => some (capitalizeL g.1, g.2)
      | none => none
  let dates := extract_dates text cy cm
  { address := match addr with | some g => (⟨g.1⟩ : String) | none => "Unknown"
    house_number := match addr with | some g => (⟨g.2⟩ : String) | none => "Unknown"
    dates := dates
    waste_types := extract_waste_types cs
    categorized_schedule := categorize_dates cs dates cy cm
    total_collections := dates.length }

/-- Embedding of the pure tail of `parse_schedule_file` (src/ocr_parser.py
lines 540-569) once the host has produced the recognized text: the
file-existence check and the OCR call are host I/O; the extension check and
the empty-text check return the source's error dictionaries as `Except`
errors, and otherwise the schedule record is built.  No path raises. -/
def parse_schedule_text (ext : String) (text : String) (cy cm : Nat) :
    Except String ScheduleInfo :=
  if ext ≠ ".png" ∧ ext ≠ ".jpg" ∧ ext ≠ ".jpeg" then
    Except.error ("Unsupported file type: " ++ ext ++ ". Only PNG/JPG images are supported.")
  else if pyStrip text.data = [] then
    Except.error "Could not extract text from image"
  else
    Except.ok (extract_schedule_info text cy cm)

deriving instance DecidableEq for Except

/-! ### Claim theorems on the assembler, error surface, ordering and year
inference -/

theorem char_eq_of_toNat_eq {a b : Char} (h : a.toNat = b.toNat) : a = b :=
  Char.ext (UInt32.ext h)

theorem strLtB_asymm : ∀ a b : List Char, strLtB a b = true → strLtB b a = true → False := by
  intro a
  induction a with
  | nil => intro b h1 h2; cases b <;> simp [strLtB] at h1 h2
  | cons x xs ih =>
    intro b h1 h2
    cases b with
    | nil => simp [strLtB] at h1
    | cons y ys =>
      simp only [strLtB, Bool.or_eq_true, Bool.and_eq_true, decide_eq_true_eq, beq_iff_eq] at h1 h2
      rcases h1 with h1 | ⟨rfl, h1⟩
      · rcases h2 with h2 | ⟨rfl, h2⟩
        · omega
        · omega
      · rcases h2 with h2 | ⟨-, h2⟩
        · omega
        · exact ih ys h1 h2

theorem strLtB_false_trans : ∀ a b c : List Char,
    strLtB b a = false → strLtB c b = false → strLtB c a = false := by
  intro a
  induction a with
  | nil =>
    intro b c _ _
    cases c with
    | nil => rfl
    | cons z zs => rfl
  | cons x xs ih =>
    intro b c h1 h2
    cases b with
    | nil => simp [strLtB] at h1
    | cons y ys =>
      cases c with
      | nil => simp [strLtB] at h2
      | cons z zs =>
        simp only [strLtB, Bool.or_eq_false_iff, Bool.and_eq_false_iff,
          decide_eq_false_iff_not, beq_eq_false_iff_ne, ne_eq] at h1 h2 ⊢
        have hxy : ¬ y.toNat < x.toNat := h1.1
        have hyz : ¬ z.toNat < y.toNat := h2.1
        refine ⟨by omega, ?_⟩
        by_cases hzx : z = x
        · right
          subst hzx
          have hyx : y = z := char_eq_of_toNat_eq (by omega)
          subst hyx
          rcases h1.2 with h | h
          · exact absurd rfl h
          · rcases h2.2 with h2b | h2b
            · exact absurd rfl h2b
            · exact ih ys zs h h2b
        · left; exact hzx

/-- The sort-key order as a proposition: entry `a` may precede entry `b`
(its ISO date is not greater). -/
def dateLe (a b : DateInfo) : Prop := strLtB b.date.data a.date.data = false

theorem insertByDate_perm (d : DateInfo) : ∀ l : List DateInfo,
    List.Perm (insertByDate d l) (d :: l) := by
  intro l
  induction l with
  | nil => rfl
  | cons e t ih =>
    simp only [insertByDate]
    by_cases hlt : strLtB e.date.data d.date.data
    · rw [if_pos hlt]
      exact List.Perm.trans (List.Perm.cons e ih) (List.Perm.swap d e t)
    · rw [if_neg hlt]

theorem sortByDate_perm : ∀ l : List DateInfo, List.Perm (sortByDate l) l := by
  intro l
  induction l with
  | nil => rfl
  | cons d t ih =>
    exact List.Perm.trans (insertByDate_perm d (sortByDate t)) (List.Perm.cons d ih)

theorem insertByDate_sorted (d : DateInfo) : ∀ l : List DateInfo,
    l.Pairwise dateLe → (insertByDate d l).Pairwise dateLe := by
  intro l
  induction l with
  | nil => intro _; simp [insertByDate]
  | cons e t ih =>
    intro h
    rcases List.pairwise_cons.mp h with ⟨he, ht⟩
    simp only [insertByDate]
    by_cases hlt : strLtB e.date.data d.date.data
    · rw [if_pos hlt]
      apply List.pairwise_cons.mpr
      refine ⟨?_, ih ht⟩
      intro x hx
      have hmem : x ∈ d :: t := (insertByDate_perm d t).mem_iff.mp hx
      rcases List.mem_cons.mp hmem with rfl | hx2
      · show strLtB x.date.data e.date.data = false
        rw [← Bool.not_eq_true]
        intro hb
        exact strLtB_asymm _ _ hlt hb
      · exact he x hx2
    · rw [if_neg hlt]
      have hlt2 : strLtB e.date.data d.date.data = false := by
        rw [← Bool.not_eq_true]
        exact hlt
      apply List.pairwise_cons.mpr
      constructor
      · intro x hx
        rcases List.mem_cons.mp hx with rfl | hx2
        · exact hlt2
        · exact strLtB_false_trans _ _ _ hlt2 (he x hx2)
      · exact h

theorem sortByDate_sorted : ∀ l : List DateInfo, (sortByDate l).Pairwise dateLe := by
  intro l
  induction l with
  | nil => simp [sortByDate]
  | cons d t ih => exact insertByDate_sorted d (sortByDate t) ih

theorem dedupByIso_spec : ∀ (l : List DateInfo) (seen : List String),
    ((dedupByIso l seen).map (fun d => d.date)).Nodup ∧
    ∀ x ∈ dedupByIso l seen, x.date ∉ seen := by
  intro l
  induction l with
  | nil => intro seen; exact ⟨List.nodup_nil, fun x hx => absurd hx (by simp [dedupByIso])⟩
  | cons d ds ih =>
    intro seen
    simp only [dedupByIso]
    by_cases hmem : d.date ∈ seen
    · rw [if_pos hmem]
      exact ih seen
    · rw [if_neg hmem]
      rcases ih (d.date :: seen) with ⟨h1, h2⟩
      refine ⟨?_, ?_⟩
      · simp only [List.map_cons, List.nodup_cons]
        refine ⟨?_, h1⟩
        intro hin
        rcases List.mem_map.mp hin with ⟨x, hx, hxd⟩
        have hx3 := h2 x hx
        rw [hxd] at hx3
        exact hx3 (List.mem_cons_self _ _)
      · intro x hx
        rcases List.mem_cons.mp hx with rfl | hx2
        · exact hmem
        · intro hin
          exact h2 x hx2 (List.mem_cons_of_mem _ hin)

theorem extract_dates_sorted_nodup (text : String) (cy cm : Nat) :
    (extract_dates text cy cm).Pairwise dateLe ∧
    ((extract_dates text cy cm).map (fun d => d.date)).Nodup := by
  constructor
  · exact sortByDate_sorted _
  · have hperm := (sortByDate_perm (dedupByIso (allDateMatches text.data cy cm) [])).map
      (fun d => d.date)
    exact hperm.nodup_iff.mpr (dedupByIso_spec (allDateMatches text.data cy cm) []).1

/-- C5: for every input text and clock, the `extract_dates` output is
sorted ascending by isoDate (pairwise `dateLe`) and no two entries share an
isoDate; and on the concrete text carrying one calendar date in two
supported syntactic forms (month-name and numeric), exactly one
CollectionDate carries that date. -/
theorem C5_extract_dates_sorted_dedup :
    (∀ (text : String) (cy cm : Nat),
      (extract_dates text cy cm).Pairwise dateLe ∧
      ((extract_dates text cy cm).map (fun d => d.date)).Nodup) ∧
    (extract_dates "3 maja 03.05.2025" 2025 9).countP
      (fun d => decide (d.date = "2025-05-03")) = 1 := by
  constructor
  · intro text cy cm
    exact extract_dates_sorted_nodup text cy cm
  · decide

theorem digitChar_toNat (m : Nat) : (digitChar m).toNat = 48 + m % 10 := by
  unfold digitChar
  have h : m % 10 < 10 := Nat.mod_lt _ (by omega)
  set k := m % 10 with hk
  interval_cases k <;> decide

theorem digitsToNat_pad4 (n : Nat) (h : n ≤ 9999) : digitsToNat (pad4 n) = n := by
  simp only [pad4, digitsToNat, List.foldl_cons, List.foldl_nil, digitChar_toNat]
  omega

theorem digitsToNat_pad2 (n : Nat) (h : n ≤ 99) : digitsToNat (pad2 n) = n := by
  simp only [pad2, digitsToNat, List.foldl_cons, List.foldl_nil, digitChar_toNat]
  omega

theorem validDate_iff (y m d : Nat) : validDate y m d = true ↔
    (1 ≤ y ∧ y ≤ 9999 ∧ 1 ≤ m ∧ m ≤ 12 ∧ 1 ≤ d ∧ d ≤ daysInMonth y m) := by
  simp [validDate, Bool.and_eq_true, decide_eq_true_eq, and_assoc]

theorem isoStr_take4 (y m d : Nat) : (isoStr y m d).data.take 4 = pad4 y := by
  show (pad4 y ++ '-' :: pad2 m ++ '-' :: pad2 d).take 4 = pad4 y
  rw [show (4 : Nat) = (pad4 y).length from rfl]
  exact List.take_left _ _

/-- C7: in the month-name branch of `extract_dates` (embedded as
`processP1`), the year of the produced entry (the first four digits of its
isoDate) is the current year plus one exactly when the looked-up month
number is at most 3 and the current month is at least 10, and the current
year in every other case. -/
theorem C7_year_inference (cy cm : Nat) (day monthName raw : List Char) (di : DateInfo)
    (h : processP1 cy cm day monthName raw = some di) :
    (digitsToNat (di.date.data.take 4) = cy + 1 ↔
      (digitsToNat (monthLookup (toLowerL monthName)) ≤ 3 ∧ 10 ≤ cm)) ∧
    (digitsToNat (di.date.data.take 4) = cy + 1 ∨
      digitsToNat (di.date.data.take 4) = cy) := by
  unfold processP1 at h
  split at h
  · exact absurd h (by simp)
  · dsimp only at h
    by_cases hcond : digitsToNat (monthLookup (toLowerL monthName)) ≤ 3 ∧ 10 ≤ cm
    · rw [if_pos hcond] at h
      unfold mkDateOpt at h
      split at h
      next hvalid =>
        have hle : cy + 1 ≤ 9999 := ((validDate_iff _ _ _).mp hvalid).2.1
        injection h with h2
        subst h2
        dsimp only
        rw [isoStr_take4, digitsToNat_pad4 _ hle]
        exact ⟨iff_of_true rfl hcond, Or.inl rfl⟩
      next => exact absurd h (by simp)
    · rw [if_neg hcond] at h
      unfold mkDateOpt at h
      split at h
      next hvalid =>
        have hle : cy ≤ 9999 := ((validDate_iff _ _ _).mp hvalid).2.1
        injection h with h2
        subst h2
        dsimp only
        rw [isoStr_take4, digitsToNat_pad4 _ hle]
        exact ⟨iff_of_false (by omega) hcond, Or.inr rfl⟩
      next => exact absurd h (by simp)

/-- C7 witness: day 5 of stycznia (month 01) seen in month 11 of 2025 is
assigned year 2026. -/
theorem C7_year_inference_witness :
    (processP1 2025 11 "5".data "stycznia".data "5 stycznia".data =
      some ⟨"2026-01-05", "05.01.2026", "Monday", "5 stycznia", false, none⟩) ∧
    (digitsToNat (("2026-01-05" : String).data.take 4) = 2025 + 1 ↔
      (digitsToNat (monthLookup (toLowerL "stycznia".data)) ≤ 3 ∧ 10 ≤ 11)) :=
  ⟨by decide,
    (C7_year_inference 2025 11 "5".data "stycznia".data "5 stycznia".data
      ⟨"2026-01-05", "05.01.2026", "Monday", "5 stycznia", false, none⟩ (by decide)).1⟩

/-- Written from the specification's words for claim C1, to compare the
assembler against: the explicit and the inferred dates merged and
deduplicated by isoDate. -/
def specMergedDates (text : String) (cy cm : Nat) : List DateInfo :=
  dedupByIso (extract_dates text cy cm ++ reconstruct_missing_dates text) []

/-- C1 counterexample: on a text whose reconstruction is non-empty but that
carries no explicit date, the assembled record's `dates` is not the merged
deduplicated set and `totalCollections` is not that set's size —
`extract_schedule_info` never invokes the reconstructor. -/
theorem C1_schedule_assembler_counterexample :
    (extract_schedule_info "wtorek; wrzesnia krakowska 3 zielone" 2025 9).dates ≠
      specMergedDates "wtorek; wrzesnia krakowska 3 zielone" 2025 9 ∧
    (extract_schedule_info "wtorek; wrzesnia krakowska 3 zielone" 2025 9).total_collections ≠
      (specMergedDates "wtorek; wrzesnia krakowska 3 zielone" 2025 9).length ∧
    reconstruct_missing_dates "wtorek; wrzesnia krakowska 3 zielone" ≠ [] := by decide

/-- C1 amended: the assembler runs explicit date extraction and
categorization but never the reconstructor: the record's `dates` field is
exactly the explicit extraction (deduplicated by isoDate — its mapped
isoDates are nodup), and `totalCollections` is the size of that explicit
deduplicated set. -/
theorem C1_schedule_assembler_amended (text : String) (cy cm : Nat) :
    (extract_schedule_info text cy cm).dates = extract_dates text cy cm ∧
    (extract_schedule_info text cy cm).total_collections =
      (extract_dates text cy cm).length ∧
    ((extract_schedule_info text cy cm).dates.map (fun d => d.date)).Nodup := by
  refine ⟨rfl, rfl, ?_⟩
  exact (extract_dates_sorted_nodup text cy cm).2

/-- C4 counterexample: non-empty recognized text with zero date matches is
not an error path — the parse returns a success record with empty dates
and zero collections, so the Unparseable case of the claim is not
surfaced as an error value. -/
theorem C4_parse_schedule_counterexample :
    parse_schedule_text ".png" "abc" 2025 9 =
      Except.ok (extract_schedule_info "abc" 2025 9) ∧
    extract_dates "abc" 2025 9 = [] ∧
    (extract_schedule_info "abc" 2025 9).dates = [] ∧
    (extract_schedule_info "abc" 2025 9).total_collections = 0 := by decide

/-- C4 amended: schedule parsing returns a structured error value, never an
exception: the error value exactly when the stripped recognized text is
empty; non-empty text always yields a success record, and when extraction
finds no dates that record has empty `dates` and `totalCollections` 0 (no
error, no retry). -/
theorem C4_parse_schedule_amended (text : String) (cy cm : Nat) :
    (pyStrip text.data = [] →
      parse_schedule_text ".png" text cy cm =
        Except.error "Could not extract text from image") ∧
    (pyStrip text.data ≠ [] →
      parse_schedule_text ".png" text cy cm =
        Except.ok (extract_schedule_info text cy cm)) ∧
    (extract_dates text cy cm = [] →
      (extract_schedule_info text cy cm).dates = [] ∧
      (extract_schedule_info text cy cm).total_collections = 0) := by
  refine ⟨?_, ?_, ?_⟩
  · intro h
    unfold parse_schedule_text
    rw [if_neg (by simp), if_pos h]
  · intro h
    unfold parse_schedule_text
    rw [if_neg (by simp), if_neg h]
  · intro h
    refine ⟨?_, ?_⟩
    · show extract_dates text cy cm = []
      exact h
    · show (extract_dates text cy cm).length = 0
      rw [h]
      rfl

/-- C4 witness: empty text errors; the text abc parses to a success
record. -/
theorem C4_parse_schedule_witness :
    (pyStrip "".data = [] ∧ pyStrip "abc".data ≠ []) ∧
    parse_schedule_text ".png" "" 2025 9 =
      Except.error "Could not extract text from image" ∧
    parse_schedule_text ".png" "abc" 2025 9 =
      Except.ok (extract_schedule_info "abc" 2025 9) :=
  ⟨⟨by decide, by decide⟩,
    (C4_parse_schedule_amended "" 2025 9).1 (by decide),
    (C4_parse_schedule_amended "abc" 2025 9).2.1 (by decide)⟩

/-! ### Claim theorems on the reconstructor -/

theorem reconGroup_length_le (wd mon : List Char) (cats : List (List Char)) :
    (reconGroup wd mon cats).length ≤ cats.length := by
  unfold reconGroup
  dsimp only
  by_cases hwd : weekdayLookup wd = []
  · rw [if_pos hwd]; simp
  · rw [if_neg hwd]
    by_cases hsep : containsSub mon "wrzesnia".data = true
    · rw [if_pos hsep]
      refine le_trans (List.length_filterMap_le _ _) ?_
      rw [List.length_zip]
      omega
    · rw [if_neg hsep]
      by_cases hoct : (containsSub mon "pazdziernika".data = true ∨
          containsSub mon "pażdziernika".data = true ∨
          containsSub mon "poździernika".data = true)
      · rw [if_pos hoct]
        refine le_trans (List.length_filterMap_le _ _) ?_
        rw [List.length_zip]
        omega
      · rw [if_neg hoct]; simp

/-- C8: every CollectionDate emitted by `reconstruct_missing_dates` comes
from some (weekday, month) group of the grouped pattern matches, its day
number is a member of the static per-weekday table for that group's month,
and it is built from the zip of the table's first-N prefix with the group's
N category mentions; moreover every group contributes at most as many
dates as it has category mentions. -/
theorem C8_reconstruction_table (text : String) :
    (∀ di ∈ reconstruct_missing_dates text,
      ∃ wd mon cats, ((wd, mon), cats) ∈ groupMatches (finditer matchReconAt text.data) ∧
        di ∈ reconGroup wd mon cats ∧
        ∃ mn tbl, ((mn = 9 ∧ tbl = septemberInference (weekdayLookup wd)) ∨
                   (mn = 10 ∧ tbl = octoberInference (weekdayLookup wd))) ∧
          ∃ p ∈ (tbl.take cats.length).zip cats,
            p.1 ∈ tbl ∧
            di = ⟨isoStr 2025 mn p.1, fmtStr 2025 mn p.1, ⟨weekdayName 2025 mn p.1⟩,
                  ⟨natDigits2 p.1 ++ ' ' :: mon⟩, true, some ⟨p.2⟩⟩) ∧
    (∀ wd mon cats, (reconGroup wd mon cats).length ≤ cats.length) := by
  refine ⟨?_, fun wd mon cats => reconGroup_length_le wd mon cats⟩
  intro di hdi
  unfold reconstruct_missing_dates at hdi
  rcases List.mem_flatMap.mp hdi with ⟨g, hg, hdig⟩
  obtain ⟨⟨wd, mon⟩, cats⟩ := g
  refine ⟨wd, mon, cats, hg, hdig, ?_⟩
  unfold reconGroup at hdig
  dsimp only at hdig
  by_cases hwd : weekdayLookup wd = []
  · rw [if_pos hwd] at hdig; exact absurd hdig (by simp)
  · rw [if_neg hwd] at hdig
    by_cases hsep : containsSub mon "wrzesnia".data = true
    · rw [if_pos hsep] at hdig
      refine ⟨9, septemberInference (weekdayLookup wd), Or.inl ⟨rfl, rfl⟩, ?_⟩
      rcases List.mem_filterMap.mp hdig with ⟨p, hp, hmk⟩
      refine ⟨p, hp, ?_, ?_⟩
      · exact List.mem_of_mem_take (List.of_mem_zip hp).1
      · unfold mkDateOpt at hmk
        split at hmk
        · injection hmk with h2
          exact h2.symm
        · exact absurd hmk (by simp)
    · rw [if_neg hsep] at hdig
      by_cases hoct : (containsSub mon "pazdziernika".data = true ∨
          containsSub mon "pażdziernika".data = true ∨
          containsSub mon "poździernika".data = true)
      · rw [if_pos hoct] at hdig
        refine ⟨10, octoberInference (weekdayLookup wd), Or.inr ⟨rfl, rfl⟩, ?_⟩
        rcases List.mem_filterMap.mp hdig with ⟨p, hp, hmk⟩
        refine ⟨p, hp, ?_, ?_⟩
        · exact List.mem_of_mem_take (List.of_mem_zip hp).1
        · unfold mkDateOpt at hmk
          split at hmk
          · injection hmk with h2
            exact h2.symm
          · exact absurd hmk (by simp)
      · rw [if_neg hoct] at hdig
        exact absurd hdig (by simp)

theorem isPrefixL_self_append : ∀ pat r : List Char, isPrefixL pat (pat ++ r) = true := by
  intro pat
  induction pat with
  | nil => intro r; rfl
  | cons p ps ih =>
    intro r
    simp only [List.cons_append, isPrefixL, Bool.and_eq_true, beq_self_eq_true]
    exact ⟨trivial, ih r⟩

theorem containsSub_of_isPrefixL : ∀ hay pat : List Char,
    isPrefixL pat hay = true → containsSub hay pat = true := by
  intro hay pat h
  cases hay with
  | nil => simpa [containsSub] using h
  | cons c t => simp [containsSub, h]

theorem containsSub_append_left : ∀ x hay pat : List Char,
    containsSub hay pat = true → containsSub (x ++ hay) pat = true := by
  intro x
  induction x with
  | nil => intro hay pat h; simpa using h
  | cons c t ih =>
    intro hay pat h
    simp only [List.cons_append, containsSub, Bool.or_eq_true]
    right
    exact ih hay pat h

theorem contains_mid : ∀ pre pat post : List Char,
    containsSub (pre ++ (pat ++ post)) pat = true := by
  intro pre pat post
  exact containsSub_append_left pre _ pat
    (containsSub_of_isPrefixL _ pat (isPrefixL_self_append pat post))

theorem matchLitCI_decomp : ∀ (pat cs con rest : List Char),
    matchLitCI pat cs = some (con, rest) → toLowerL con = pat ∧ cs = con ++ rest := by
  intro pat
  induction pat with
  | nil =>
    intro cs con rest h
    simp only [matchLitCI, Option.some.injEq, Prod.mk.injEq] at h
    rcases h with ⟨h1, h2⟩
    subst h1
    subst h2
    exact ⟨rfl, rfl⟩
  | cons p ps ih =>
    intro cs con rest h
    cases cs with
    | nil => simp [matchLitCI] at h
    | cons c cs2 =>
      simp only [matchLitCI] at h
      by_cases hc : lowerChar c == p
      · rw [if_pos hc] at h
        rcases h2 : matchLitCI ps cs2 with _ | ⟨con2, rest2⟩ <;> rw [h2] at h
        · simp at h
        · simp only [Option.some.injEq, Prod.mk.injEq] at h
          obtain ⟨rfl, rfl⟩ := h
          rcases ih cs2 con2 rest2 h2 with ⟨hl, hsplit⟩
          constructor
          · show lowerChar c :: toLowerL con2 = p :: ps
            rw [hl, eq_of_beq hc]
          · rw [hsplit]
            rfl
      · rw [if_neg hc] at h
        simp at h

theorem matchWsPlus_decomp : ∀ (cs con rest : List Char),
    matchWsPlus cs = some (con, rest) → cs = con ++ rest := by
  intro cs con rest h
  cases cs with
  | nil => simp [matchWsPlus] at h
  | cons c cs2 =>
    simp only [matchWsPlus] at h
    by_cases hc : isSpaceC c
    · rw [if_pos hc] at h
      simp only [Option.some.injEq, Prod.mk.injEq] at h
      obtain ⟨rfl, rfl⟩ := h
      simp [List.takeWhile_append_dropWhile]
    · rw [if_neg hc] at h
      simp at h

theorem matchAltCI_decomp : ∀ (alts : List (List Char)) (cs con rest : List Char),
    matchAltCI alts cs = some (con, rest) → cs = con ++ rest := by
  intro alts
  induction alts with
  | nil => intro cs con rest h; simp [matchAltCI, List.findSome?] at h
  | cons a as ih =>
    intro cs con rest h
    unfold matchAltCI at h
    rw [List.findSome?_cons] at h
    rcases h2 : matchLitCI a cs with _ | ⟨con2, rest2⟩ <;> rw [h2] at h
    · exact ih cs con rest h
    · simp only [Option.some.injEq, Prod.mk.injEq] at h
      obtain ⟨rfl, rfl⟩ := h
      exact (matchLitCI_decomp a cs _ _ h2).2

theorem matchReconAt_contains (cs : List Char)
    (z : (List Char × List Char × List Char) × List Char)
    (h : matchReconAt cs = some z) :
    containsSub (toLowerL cs) "krakowska".data = true := by
  unfold matchReconAt at h
  rcases h1 : matchAltCI reconWeekdayAlts cs with _ | wr1 <;> rw [h1] at h
  · simp at h
  · obtain ⟨w, r1⟩ := wr1
    simp only [Option.bind_eq_bind, Option.some_bind] at h
    try dsimp only at h
    rcases h2 : (match r1 with
      | c :: rest => if c == ';' || c == ',' then some rest else none
      | [] => none) with _ | r2 <;> rw [h2] at h
    · simp at h
    · simp only [Option.bind_eq_bind, Option.some_bind] at h
      try dsimp only at h
      rcases h3 : matchAltCI reconMonthAlts (r2.dropWhile isSpaceC) with _ | mr4 <;> rw [h3] at h
      · simp at h
      · obtain ⟨m, r4⟩ := mr4
        simp only [Option.bind_eq_bind, Option.some_bind] at h
        try dsimp only at h
        rcases h4 : matchWsPlus r4 with _ | sr5 <;> rw [h4] at h
        · simp at h
        · obtain ⟨s1, r5⟩ := sr5
          simp only [Option.bind_eq_bind, Option.some_bind] at h
          try dsimp only at h
          rcases h5 : matchLitCI "krakowska".data r5 with _ | kr6 <;> rw [h5] at h
          · simp at h
          · obtain ⟨kk, r6⟩ := kr6
            have hd1 : cs = w ++ r1 := matchAltCI_decomp _ _ _ _ h1
            have hd2 : ∃ c, r1 = c :: r2 := by
              rcases r1 with _ | ⟨c, rest⟩
              · simp at h2
              · dsimp only at h2
                refine ⟨c, ?_⟩
                by_cases hcx : c == ';' || c == ','
                · rw [if_pos hcx] at h2
                  injection h2 with h2e
                  rw [h2e]
                · rw [if_neg hcx] at h2
                  simp at h2
            have hd3 : r2 = r2.takeWhile isSpaceC ++ r2.dropWhile isSpaceC :=
              (List.takeWhile_append_dropWhile _ _).symm
            have hd4 : r2.dropWhile isSpaceC = m ++ r4 := matchAltCI_decomp _ _ _ _ h3
            have hd5 : r4 = s1 ++ r5 := matchWsPlus_decomp _ _ _ h4
            have hd6 : toLowerL kk = "krakowska".data ∧ r5 = kk ++ r6 :=
              matchLitCI_decomp _ _ _ _ h5
            obtain ⟨c, hc⟩ := hd2
            rw [hd1, hc]
            show containsSub (toLowerL (w ++ c :: r2)) "krakowska".data = true
            rw [hd3, hd4, hd5, hd6.2]
            unfold toLowerL
            simp only [List.map_append, List.map_cons]
            have hd6b : List.map lowerChar kk =
                ['k', 'r', 'a', 'k', 'o', 'w', 's', 'k', 'a'] := hd6.1
            rw [← hd6b]
            have hassoc : (w.map lowerChar ++
                (lowerChar c :: ((r2.takeWhile isSpaceC).map lowerChar ++
                  (m.map lowerChar ++ (s1.map lowerChar ++ ((kk.map lowerChar) ++ r6.map lowerChar)))))) =
                (w.map lowerChar ++ lowerChar c :: ((r2.takeWhile isSpaceC).map lowerChar ++
                  (m.map lowerChar ++ s1.map lowerChar))) ++ ((kk.map lowerChar) ++ r6.map lowerChar) := by
              simp [List.append_assoc]
            rw [hassoc]
            exact contains_mid _ _ _

theorem finditerGo_ne_nil {α : Type} (f : List Char → Option (α × List Char)) :
    ∀ (fuel : Nat) (cs : List Char), finditerGo f fuel cs ≠ [] →
      ∃ cs2, List.IsSuffix cs2 cs ∧ ∃ z, f cs2 = some z := by
  intro fuel
  induction fuel with
  | zero => intro cs h; cases cs <;> exact absurd rfl h
  | succ n ih =>
    intro cs h
    cases cs with
    | nil => exact absurd rfl h

    | cons c rest =>
      rcases hf : f (c :: rest) with _ | z
      · have hrec : finditerGo f (n + 1) (c :: rest) = finditerGo f n rest := by
          simp only [finditerGo, hf]
        rw [hrec] at h
        obtain ⟨cs2, hsuf, hz⟩ := ih rest h
        exact ⟨cs2, hsuf.trans (List.suffix_cons c rest), hz⟩
      · exact ⟨c :: rest, List.suffix_refl _, z, hf⟩

/-- C10 amended: a text that does not contain the street token krakowska
in any letter case yields no reconstructed date: the reconstruction regex
hardcodes that one street name, so no date is inferred for any other
address. -/
theorem C10_reconstruct_token_amended (text : String)
    (h : containsSub (toLowerL text.data) "krakowska".data = false) :
    reconstruct_missing_dates text = [] := by
  unfold reconstruct_missing_dates
  suffices hf : finditer matchReconAt text.data = [] by
    rw [hf]
    rfl
  by_contra hne
  obtain ⟨cs2, hsuf, z, hz⟩ :=
    finditerGo_ne_nil matchReconAt text.data.length text.data hne
  have hcontains := matchReconAt_contains cs2 z hz
  obtain ⟨pre, hpre⟩ := hsuf
  have hsplit : toLowerL text.data = toLowerL pre ++ toLowerL cs2 := by
    rw [← hpre]
    simp [toLowerL]
  rw [hsplit] at h
  rw [containsSub_append_left (toLowerL pre) (toLowerL cs2) _ hcontains] at h
  simp at h

/-- C10 counterexample: the claim as stated speaks of the literal token,
but the pattern is compiled case-insensitively: a text containing only
upper-case KRAKOWSKA (so not the literal lower-case token) still yields
reconstructed dates. -/
theorem C10_reconstruct_token_counterexample :
    containsSub "wtorek; wrzesnia KRAKOWSKA 3 zielone".data "krakowska".data = false ∧
    reconstruct_missing_dates "wtorek; wrzesnia KRAKOWSKA 3 zielone" ≠ [] := by decide

/-- C10 witness: a text without the token in any case reconstructs to
the empty list. -/
theorem C10_reconstruct_token_witness :
    containsSub (toLowerL "wtorek bio".data) "krakowska".data = false ∧
    reconstruct_missing_dates "wtorek bio" = [] :=
  ⟨by decide, C10_reconstruct_token_amended "wtorek bio" (by decide)⟩

/-! ### Claim theorems on re-feeding formatted dates (C6) -/

/-- Shape invariant of every date dictionary the extractor builds. -/
def WellFormedDI (di : DateInfo) : Prop :=
  ∃ y m d, validDate y m d = true ∧ di.date = isoStr y m d ∧ di.formatted = fmtStr y m d

theorem mkDateOpt_wf (y m d : Nat) (raw : List Char) (inf : Bool) (wt : Option String)
    (di : DateInfo) (h : mkDateOpt y m d raw inf wt = some di) : WellFormedDI di := by
  unfold mkDateOpt at h
  split at h
  next hv =>
    injection h with h2
    subst h2
    exact ⟨y, m, d, hv, rfl, rfl⟩
  next => exact absurd h (by simp)

theorem processP1_wf (cy cm : Nat) (day mn raw : List Char) (di : DateInfo)
    (h : processP1 cy cm day mn raw = some di) : WellFormedDI di := by
  unfold processP1 at h
  split at h
  · exact absurd h (by simp)
  · exact mkDateOpt_wf _ _ _ _ _ _ _ h

theorem process3_wf (day mn yr raw : List Char) (di : DateInfo)
    (h : process3 day mn yr raw = some di) : WellFormedDI di := by
  unfold process3 at h
  split at h
  · exact absurd h (by simp)
  · exact mkDateOpt_wf _ _ _ _ _ _ _ h

theorem allDateMatches_wf (cs : List Char) (cy cm : Nat) (di : DateInfo)
    (h : di ∈ allDateMatches cs cy cm) : WellFormedDI di := by
  unfold allDateMatches at h
  rcases List.mem_append.mp h with h1 | h1
  · rcases List.mem_append.mp h1 with h2 | h2
    · rcases List.mem_append.mp h2 with h3 | h3
      · rcases List.mem_filterMap.mp h3 with ⟨g, _, hp⟩
        exact processP1_wf _ _ _ _ _ _ hp
      · rcases List.mem_filterMap.mp h3 with ⟨g, _, hp⟩
        exact process3_wf _ _ _ _ _ hp
    · rcases List.mem_filterMap.mp h2 with ⟨g, _, hp⟩
      exact process3_wf _ _ _ _ _ hp
  · rcases List.mem_filterMap.mp h1 with ⟨g, _, hp⟩
    exact process3_wf _ _ _ _ _ hp

theorem dedupByIso_subset : ∀ (l : List DateInfo) (seen : List String) (x : DateInfo),
    x ∈ dedupByIso l seen → x ∈ l := by
  intro l
  induction l with
  | nil => intro seen x h; simp [dedupByIso] at h
  | cons d ds ih =>
    intro seen x h
    simp only [dedupByIso] at h
    by_cases hmem : d.date ∈ seen
    · rw [if_pos hmem] at h
      exact List.mem_cons_of_mem _ (ih seen x h)
    · rw [if_neg hmem] at h
      rcases List.mem_cons.mp h with rfl | h2
      · exact List.mem_cons_self _ _
      · exact List.mem_cons_of_mem _ (ih _ x h2)

theorem extract_dates_wf (text : String) (cy cm : Nat) (di : DateInfo)
    (h : di ∈ extract_dates text cy cm) : WellFormedDI di := by
  unfold extract_dates at h
  have h2 := (sortByDate_perm _).mem_iff.mp h
  exact allDateMatches_wf _ cy cm di (dedupByIso_subset _ _ _ h2)

theorem isDigitC_digitChar (n : Nat) : isDigitC (digitChar n) = true := by
  have h : (digitChar n).toNat = 48 + n % 10 := digitChar_toNat n
  have h2 : n % 10 < 10 := Nat.mod_lt _ (by omega)
  simp only [isDigitC, h, Bool.and_eq_true, decide_eq_true_eq]
  omega

theorem matchP2At_fmt (y m d : Nat) :
    matchP2At (pad2 d ++ '.' :: pad2 m ++ '.' :: pad4 y) =
      some ((pad2 d, pad2 m, pad4 y), []) := by
  simp only [pad2, pad4, List.cons_append, List.nil_append]
  simp [matchP2At, p2Tail, matchDigits2, matchDigits1, matchSep, matchDigits4,
    isDigitC_digitChar, Option.orElse]

theorem daysInMonth_le (y m : Nat) : daysInMonth y m ≤ 31 := by
  unfold daysInMonth
  repeat' split
  all_goals omega

theorem finditer_head_mem {α : Type} (f : List Char → Option (α × List Char))
    (cs : List Char) (g : α) (h : f cs = some (g, [])) (hne : cs ≠ []) :
    (g, cs) ∈ finditer f cs := by
  unfold finditer
  cases cs with
  | nil => exact absurd rfl hne
  | cons c rest =>
    simp only [List.length_cons, finditerGo, h]
    have htake : (c :: rest).take ((c :: rest).length - ([] : List Char).length) = c :: rest := by
      simp
    simp only [List.length_cons] at htake
    rw [htake]
    exact List.mem_cons_self _ _

theorem process3_fmt (y m d : Nat) (raw : List Char) (hv : validDate y m d = true) :
    process3 (pad2 d) (pad2 m) (pad4 y) raw =
      some ⟨isoStr y m d, fmtStr y m d, ⟨weekdayName y m d⟩, ⟨raw⟩, false, none⟩ := by
  have hfacts := (validDate_iff _ _ _).mp hv
  have hy : y ≤ 9999 := hfacts.2.1
  have hm12 : m ≤ 12 := hfacts.2.2.2.1
  have hd31 : d ≤ 31 := le_trans hfacts.2.2.2.2.2 (daysInMonth_le y m)
  unfold process3
  rw [if_neg (by simp [pad2, pad4])]
  have hfind : polishMonths.find? (fun p => decide (p.1 = toLowerL (pad2 m))) = none := by
    apply List.find?_eq_none.mpr
    intro p hp
    simp only [decide_eq_true_eq, Bool.not_eq_true]
    have hall : ∀ q ∈ polishMonths, 3 ≤ q.1.length := by decide
    have hlen3 : 3 ≤ p.1.length := hall p hp
    have hlen2 : (toLowerL (pad2 m)).length = 2 := by simp [toLowerL, pad2]
    intro heq
    rw [heq, hlen2] at hlen3
    omega
  dsimp only
  rw [hfind]
  simp only [Option.isSome_none, Bool.false_eq_true, if_false]
  rw [if_neg (by simp [pad4])]
  rw [digitsToNat_pad4 y hy, digitsToNat_pad2 m (by omega), digitsToNat_pad2 d (by omega)]
  unfold mkDateOpt
  rw [if_pos hv]

theorem dedupByIso_mem_date : ∀ (l : List DateInfo) (seen : List String) (s : String),
    s ∈ l.map (fun di => di.date) → s ∉ seen →
    s ∈ (dedupByIso l seen).map (fun di => di.date) := by
  intro l
  induction l with
  | nil => intro seen s h _; simp at h
  | cons d ds ih =>
    intro seen s h hs
    rcases List.mem_cons.mp h with heq | h2
    · simp only [dedupByIso]
      by_cases hmem : d.date ∈ seen
      · rw [heq] at hs
        exact absurd hmem hs
      · rw [if_neg hmem]
        simp only [List.map_cons]
        rw [heq]
        exact List.mem_cons_self _ _
    · simp only [dedupByIso]
      by_cases hmem : d.date ∈ seen
      · rw [if_pos hmem]
        exact ih seen s h2 hs
      · rw [if_neg hmem]
        by_cases hsd : s = d.date
        · simp only [List.map_cons]
          rw [hsd]
          exact List.mem_cons_self _ _
        · simp only [List.map_cons]
          apply List.mem_cons_of_mem
          apply ih (d.date :: seen) s h2
          intro hin
          rcases List.mem_cons.mp hin with h3 | h3
          · exact hsd h3
          · exact hs h3

theorem refeed_mem (y m d cy cm : Nat) (hv : validDate y m d = true) :
    isoStr y m d ∈ (extract_dates (fmtStr y m d) cy cm).map (fun di => di.date) := by
  have hmem : (⟨isoStr y m d, fmtStr y m d, ⟨weekdayName y m d⟩,
      ⟨(fmtStr y m d).data⟩, false, none⟩ : DateInfo)
      ∈ allDateMatches (fmtStr y m d).data cy cm := by
    unfold allDateMatches
    apply List.mem_append.mpr
    left
    apply List.mem_append.mpr
    left
    apply List.mem_append.mpr
    right
    apply List.mem_filterMap.mpr
    refine ⟨((pad2 d, pad2 m, pad4 y), (fmtStr y m d).data), ?_, ?_⟩
    · have hfd : (fmtStr y m d).data = pad2 d ++ '.' :: pad2 m ++ '.' :: pad4 y := rfl
      rw [hfd]
      exact finditer_head_mem _ _ _ (matchP2At_fmt y m d) (by simp [pad2])
    · exact process3_fmt y m d _ hv
  have hmem2 : isoStr y m d ∈ (allDateMatches (fmtStr y m d).data cy cm).map (fun di => di.date) :=
    List.mem_map.mpr ⟨_, hmem, rfl⟩
  have hmem3 := dedupByIso_mem_date _ [] _ hmem2 (by simp)
  unfold extract_dates
  exact ((sortByDate_perm _).map (fun di => di.date)).mem_iff.mpr hmem3

/-- C6 amended: re-feeding the `formattedDate` string of any CollectionDate
the extractor produces reproduces that same isoDate among the results — the
isoDate is in the re-fed output — but not necessarily alone: the 2-digit
year pattern can also match a prefix of the 4-digit year and add a second,
spurious date. -/
theorem C6_refeed_amended (text : String) (cy cm : Nat) (di : DateInfo)
    (h : di ∈ extract_dates text cy cm) :
    di.date ∈ (extract_dates di.formatted cy cm).map (fun x => x.date) := by
  obtain ⟨y, m, d, hv, hdate, hfmt⟩ := extract_dates_wf text cy cm di h
  rw [hdate, hfmt]
  exact refeed_mem y m d cy cm hv

/-- C6 witness: the entry for 2025-09-16 produced from the text 16.09.2025
re-feeds (its formattedDate is that same string) to an output containing
2025-09-16. -/
theorem C6_refeed_witness :
    ((⟨"2025-09-16", "16.09.2025", "Tuesday", "16.09.2025", false, none⟩ : DateInfo) ∈
      extract_dates "16.09.2025" 2025 10) ∧
    ("2025-09-16" : String) ∈
      (extract_dates ("16.09.2025" : String) 2025 10).map (fun x => x.date) :=
  ⟨by decide,
    C6_refeed_amended "16.09.2025" 2025 10
      ⟨"2025-09-16", "16.09.2025", "Tuesday", "16.09.2025", false, none⟩ (by decide)⟩

/-- C6 counterexample: the extractor's entry for 2025-09-16 carries
formattedDate 16.09.2025, and feeding that string back yields two
isoDates (the 2-digit-year pattern reads 16.09.20 as 2020-09-16), not
exactly the original isoDate and no other. -/
theorem C6_refeed_counterexample :
    ((⟨"2025-09-16", "16.09.2025", "Tuesday", "16.09.2025", false, none⟩ : DateInfo) ∈
      extract_dates "16.09.2025" 2025 10) ∧
    (extract_dates "16.09.2025" 2025 10).map (fun x => x.date) =
      ["2020-09-16", "2025-09-16"] ∧
    ¬ (extract_dates "16.09.2025" 2025 10).map (fun x => x.date) = ["2025-09-16"] := by
  decide
